import Mathlib

/-!
# Cache-aside record service (`src/main.go`)

A shallow embedding of the five gin handlers of `src/main.go`
(`getUsers`, `getUser`, `createUser`, `updateUser`, `deleteUser`) over an
explicit state made of the `users` table of `src/config/database.go` and the
Redis key space.  Every handler is a pure function from the state before the
request to the state after it, the HTTP response, and the log of the calls it
issued against the two clients.
-/

namespace GoRedisMySQL

/-! ## Data model -/

/-- Modelled from the spec: the declaration of `models.User` (package
`go-mysql-redis-app/models`) is not part of the sources; the fields are the
three the handlers scan and bind, `ID` (a Go `int`), `Username` and `Email`. -/
structure User where
  ID : Int
  Username : String
  Email : String
deriving DecidableEq, Repr

/-- The `users` table created by `createUsersTable` (`src/config/database.go`):
the rows in insertion order and the next `AUTO_INCREMENT` value of `id`. -/
structure DB where
  rows : List User
  autoInc : Nat
deriving DecidableEq, Repr

/-- One Redis entry: the stored string and its remaining time to live, in
nanoseconds (the unit of Go's `time.Duration`). -/
structure CacheEntry where
  value : String
  ttl : Nat
deriving DecidableEq, Repr

/-- The Redis key space: live entries only, keyed by string. -/
abbrev Cache := List (String × CacheEntry)

/-- The two process-wide handles of `src/main.go`: `db` and `redisClient`. -/
structure State where
  db : DB
  redisClient : Cache
deriving DecidableEq, Repr

/-- Errors a `database/sql` call can return to a handler. -/
inductive DbError where
  | ErrNoRows
  | duplicateEntry (key : String)
  | other (msg : String)
deriving DecidableEq, Repr

/-- The text of `err.Error()`.  `sql.ErrNoRows` has a fixed text; the text of
a driver error is the server's message for it. -/
def DbError.Error : DbError → String
  | DbError.ErrNoRows => "sql: no rows in result set"
  | DbError.duplicateEntry key =>
      "Error 1062: Duplicate entry '" ++ key ++ "' for key 'username'"
  | DbError.other msg => msg

/-- Outcome of the external calls of one handler invocation that the state
does not determine.  Each handler issues at most one database call and at
most one Redis call of each kind, so one record describes an invocation.
`db = some msg` makes the database call fail with a driver error of text
`msg` (lost connection, a value too long for its column, a failed scan, ...);
`redisGet`, `redisSet`, `redisDel` make the respective Redis call fail. -/
structure Faults where
  db : Option String
  redisGet : Bool
  redisSet : Bool
  redisDel : Bool
deriving DecidableEq, Repr

/-- Every external call goes through. -/
def Faults.none : Faults := ⟨Option.none, false, false, false⟩

/-- The calls a handler issues against `db` and `redisClient`, in order. -/
inductive Call where
  | redisGet (key : String)
  | redisSet (key value : String) (expiration : Nat)
  | redisDel (key : String)
  | dbQuery (query : String) (args : List String)
  | dbQueryRow (query : String) (args : List String)
  | dbExec (query : String) (args : List String)
deriving DecidableEq, Repr

/-- Whether a call goes to the database handle `db`. -/
def Call.isDb : Call → Bool
  | Call.dbQuery _ _ => true
  | Call.dbQueryRow _ _ => true
  | Call.dbExec _ _ => true
  | _ => false

/-- Number of database calls in a call log. -/
def dbCallCount (calls : List Call) : Nat := (calls.filter Call.isDb).length

/-- What `c.JSON`, `c.String` or `c.Status` wrote as the response body. -/
inductive Body where
  | empty
  | text (s : String)
  | error (msg : String)
  | user (u : User)
  | users (us : List User)
deriving DecidableEq, Repr

/-- An HTTP response: status code and body. -/
structure Response where
  status : Nat
  body : Body
deriving DecidableEq, Repr

/-- The result of running one handler. -/
structure Result where
  state : State
  resp : Response
  calls : List Call
deriving DecidableEq, Repr

/-- `encoding/json` on `models.User`, taken as a parameter: `marshal` is
`json.Marshal(user)` and `unmarshal val` is the value of a zero `models.User`
after `json.Unmarshal([]byte(val), &user)`; the handlers drop the error of
both calls. -/
structure Codec where
  marshal : User → String
  unmarshal : String → User

/-! ## Constants of `net/http` and `time` -/

def StatusOK : Nat := 200
def StatusCreated : Nat := 201
def StatusNoContent : Nat := 204
def StatusBadRequest : Nat := 400
def StatusNotFound : Nat := 404
def StatusInternalServerError : Nat := 500

def Nanosecond : Nat := 1
def Microsecond : Nat := 1000 * Nanosecond
def Millisecond : Nat := 1000 * Microsecond
def Second : Nat := 1000 * Millisecond
def Minute : Nat := 60 * Second
def Hour : Nat := 60 * Minute

/-! ## The `users` table -/

/-- State of the table right after `createUsersTable`: no rows, first id 1. -/
def DB.init : DB := ⟨[], 1⟩

/-- Rows selected by `WHERE username = ?` (usernames compared as strings). -/
def DB.selectByUsername (db : DB) (username : String) : Option User :=
  db.rows.find? (fun r => decide (r.Username = username))

/-- The call `db.Query("SELECT id, username, email FROM users")` followed by
the scan loop of `getUsers`. -/
def dbQueryAll (db : DB) (f : Faults) : Except DbError (List User) :=
  match f.db with
  | some msg => Except.error (DbError.other msg)
  | Option.none => Except.ok db.rows

/-- The call `db.QueryRow("SELECT ... WHERE username = ?", username).Scan(...)`:
the first matching row, `sql.ErrNoRows` when none matches. -/
def dbQueryRow (db : DB) (username : String) (f : Faults) : Except DbError User :=
  match f.db with
  | some msg => Except.error (DbError.other msg)
  | Option.none =>
    match db.selectByUsername username with
    | some r => Except.ok r
    | Option.none => Except.error DbError.ErrNoRows

/-- The call `db.Exec("INSERT INTO users (username, email) VALUES (?, ?)", ...)`:
rejected by the `UNIQUE` constraint on `username` when a row with that
username exists, otherwise appends a row with the next `AUTO_INCREMENT` id.
Returns the new table and `LastInsertId`. -/
def dbExecInsert (db : DB) (username email : String) (f : Faults) :
    Except DbError (DB × Nat) :=
  match f.db with
  | some msg => Except.error (DbError.other msg)
  | Option.none =>
    match db.selectByUsername username with
    | some _ => Except.error (DbError.duplicateEntry username)
    | Option.none =>
      Except.ok (⟨db.rows ++ [⟨Int.ofNat db.autoInc, username, email⟩], db.autoInc + 1⟩,
        db.autoInc)

/-- The call `db.Exec("UPDATE users SET email = ? WHERE username = ?", ...)`:
sets the email of every matching row.  Returns the new table and
`RowsAffected`, the number of rows it changed (`updateUser` drops it). -/
def dbExecUpdate (db : DB) (email username : String) (f : Faults) :
    Except DbError (DB × Nat) :=
  match f.db with
  | some msg => Except.error (DbError.other msg)
  | Option.none =>
    Except.ok (⟨db.rows.map (fun r => if r.Username = username then { r with Email := email } else r),
        db.autoInc⟩,
      (db.rows.filter (fun r => decide (r.Username = username ∧ r.Email ≠ email))).length)

/-- The call `db.Exec("DELETE FROM users WHERE username = ?", username)`:
removes every matching row.  Returns the new table and `RowsAffected`. -/
def dbExecDelete (db : DB) (username : String) (f : Faults) :
    Except DbError (DB × Nat) :=
  match f.db with
  | some msg => Except.error (DbError.other msg)
  | Option.none =>
    Except.ok (⟨db.rows.filter (fun r => decide (r.Username ≠ username)), db.autoInc⟩,
      (db.rows.filter (fun r => decide (r.Username = username))).length)

/-! ## The Redis key space -/

/-- The entry stored under a key, if any. -/
def Cache.entry (c : Cache) (key : String) : Option CacheEntry :=
  (c.find? (fun e => decide (e.1 = key))).map (fun e => e.2)

/-- The key space after `SET key value` with the given expiration. -/
def Cache.set (c : Cache) (key value : String) (expiration : Nat) : Cache :=
  (key, ⟨value, expiration⟩) :: c.filter (fun e => decide (e.1 ≠ key))

/-- The key space after `DEL key`. -/
def Cache.del (c : Cache) (key : String) : Cache :=
  c.filter (fun e => decide (e.1 ≠ key))

/-- The key space after `d` nanoseconds: entries whose time to live has run
out are gone, the others have `d` less to live. -/
def Cache.elapse (c : Cache) (d : Nat) : Cache :=
  c.filterMap (fun e => if d < e.2.ttl then some (e.1, ⟨e.2.value, e.2.ttl - d⟩) else Option.none)

/-- The call `redisClient.Get(ctx, key).Result()`: `some val` stands for
`err == nil`; a missing key (`redis.Nil`) and a failed call both give an
error, which is all the handler looks at. -/
def redisGet (c : Cache) (key : String) (f : Faults) : Option String :=
  if f.redisGet then Option.none else (c.entry key).map (fun e => e.value)

/-- The call `redisClient.Set(ctx, key, value, expiration)`; its result is
dropped by the handler. -/
def redisSet (c : Cache) (key value : String) (expiration : Nat) (f : Faults) : Cache :=
  if f.redisSet then c else c.set key value expiration

/-- The call `redisClient.Del(ctx, key)`; its result is dropped by the handler. -/
def redisDel (c : Cache) (key : String) (f : Faults) : Cache :=
  if f.redisDel then c else c.del key

/-! ## The handlers of `src/main.go` -/

def sqlSelectAll : String := "SELECT id, username, email FROM users"
def sqlSelectOne : String := "SELECT id, username, email FROM users WHERE username = ?"
def sqlInsert : String := "INSERT INTO users (username, email) VALUES (?, ?)"
def sqlUpdate : String := "UPDATE users SET email = ? WHERE username = ?"
def sqlDelete : String := "DELETE FROM users WHERE username = ?"

/-- Handler `getUsers` (`GET /user`). -/
def getUsers (s : State) (f : Faults) : Result :=
  match dbQueryAll s.db f with
  | Except.error err =>
    ⟨s, ⟨StatusInternalServerError, Body.error err.Error⟩, [Call.dbQuery sqlSelectAll []]⟩
  | Except.ok users =>
    ⟨s, ⟨StatusOK, Body.users users⟩, [Call.dbQuery sqlSelectAll []]⟩

/-- Handler `getUser` (`GET /user/:username`). -/
def getUser (cd : Codec) (s : State) (username : String) (f : Faults) : Result :=
  match redisGet s.redisClient username f with
  | some val =>
    ⟨s, ⟨StatusOK, Body.user (cd.unmarshal val)⟩, [Call.redisGet username]⟩
  | Option.none =>
    match dbQueryRow s.db username f with
    | Except.error err =>
      if err = DbError.ErrNoRows then
        ⟨s, ⟨StatusNotFound, Body.error "User not found"⟩,
          [Call.redisGet username, Call.dbQueryRow sqlSelectOne [username]]⟩
      else
        ⟨s, ⟨StatusInternalServerError, Body.error err.Error⟩,
          [Call.redisGet username, Call.dbQueryRow sqlSelectOne [username]]⟩
    | Except.ok user =>
      let userJSON := cd.marshal user
      ⟨{ s with redisClient := redisSet s.redisClient username userJSON Hour f },
        ⟨StatusOK, Body.user user⟩,
        [Call.redisGet username, Call.dbQueryRow sqlSelectOne [username],
          Call.redisSet username userJSON Hour]⟩

/-- Handler `createUser` (`POST /user`).  `body` is the outcome of
`c.ShouldBindJSON(&user)`: the bound user, or the text of the binding error. -/
def createUser (s : State) (body : Except String User) (f : Faults) : Result :=
  match body with
  | Except.error msg => ⟨s, ⟨StatusBadRequest, Body.error msg⟩, []⟩
  | Except.ok user =>
    match dbExecInsert s.db user.Username user.Email f with
    | Except.error err =>
      ⟨s, ⟨StatusInternalServerError, Body.error err.Error⟩,
        [Call.dbExec sqlInsert [user.Username, user.Email]]⟩
    | Except.ok (db, id) =>
      ⟨{ s with db := db }, ⟨StatusCreated, Body.user { user with ID := Int.ofNat id }⟩,
        [Call.dbExec sqlInsert [user.Username, user.Email]]⟩

/-- Handler `updateUser` (`PUT /user/:username`).  `body` is the outcome of
`c.ShouldBindJSON(&user)`. -/
def updateUser (s : State) (username : String) (body : Except String User) (f : Faults) :
    Result :=
  match body with
  | Except.error msg => ⟨s, ⟨StatusBadRequest, Body.error msg⟩, []⟩
  | Except.ok user =>
    match dbExecUpdate s.db user.Email username f with
    | Except.error err =>
      ⟨s, ⟨StatusInternalServerError, Body.error err.Error⟩,
        [Call.dbExec sqlUpdate [user.Email, username]]⟩
    | Except.ok (db, _) =>
      ⟨⟨db, redisDel s.redisClient username f⟩, ⟨StatusOK, Body.user user⟩,
        [Call.dbExec sqlUpdate [user.Email, username], Call.redisDel username]⟩

/-- Handler `deleteUser` (`DELETE /user/:username`). -/
def deleteUser (s : State) (username : String) (f : Faults) : Result :=
  match dbExecDelete s.db username f with
  | Except.error err =>
    ⟨s, ⟨StatusInternalServerError, Body.error err.Error⟩,
      [Call.dbExec sqlDelete [username]]⟩
  | Except.ok (db, rowsAffected) =>
    if rowsAffected = 0 then
      ⟨{ s with db := db }, ⟨StatusNotFound, Body.error "User not found"⟩,
        [Call.dbExec sqlDelete [username]]⟩
    else
      ⟨⟨db, redisDel s.redisClient username f⟩, ⟨StatusNoContent, Body.empty⟩,
        [Call.dbExec sqlDelete [username], Call.redisDel username]⟩

/-- A run of `getUser` requests for the same username, one per element of
`fs`; the state after the last one. -/
def reads (cd : Codec) (s : State) (username : String) : List Faults → State
  | [] => s
  | f :: fs => reads cd (getUser cd s username f).state username fs

/-! ## Runs of the service -/

/-- One step of the service: a request together with the outcome of its
external calls, or the passing of `d` nanoseconds. -/
inductive Op where
  | getUsers (f : Faults)
  | getUser (username : String) (f : Faults)
  | createUser (body : Except String User) (f : Faults)
  | updateUser (username : String) (body : Except String User) (f : Faults)
  | deleteUser (username : String) (f : Faults)
  | elapse (d : Nat)

/-- The state after one step. -/
def step (cd : Codec) (s : State) : Op → State
  | Op.getUsers f => (getUsers s f).state
  | Op.getUser username f => (getUser cd s username f).state
  | Op.createUser body f => (createUser s body f).state
  | Op.updateUser username body f => (updateUser s username body f).state
  | Op.deleteUser username f => (deleteUser s username f).state
  | Op.elapse d => ⟨s.db, s.redisClient.elapse d⟩

/-- The state after a sequence of steps. -/
def run (cd : Codec) (s : State) : List Op → State
  | [] => s
  | op :: ops => run cd (step cd s op) ops

/-- Whether a step, taken in state `s`, is neither a write to `U` nor the
expiry of the entry of `U`: it is not an `updateUser` or `deleteUser` for `U`,
not a passage of time that reaches the time to live the entry of `U` has
left, and, when it is a `getUser` for `U` itself, its `Get` goes through.
Requests for other usernames, `createUser` and `getUsers` always qualify. -/
def Op.quietFor (U : String) (s : State) : Op → Bool
  | Op.getUsers _ => true
  | Op.getUser username f => decide (username ≠ U) || !f.redisGet
  | Op.createUser _ _ => true
  | Op.updateUser username _ _ => decide (username ≠ U)
  | Op.deleteUser username _ => decide (username ≠ U)
  | Op.elapse d =>
    match s.redisClient.entry U with
    | some e => decide (d < e.ttl)
    | Option.none => true

/-- Whether every step of a run from `s` qualifies, each in the state it is
taken in. -/
def quietRun (cd : Codec) (U : String) : State → List Op → Bool
  | _, [] => true
  | s, op :: ops => op.quietFor U s && quietRun cd U (step cd s op) ops

/-! ## A codec: the JSON text of a user

An instance of `Codec`, used where a statement is instantiated. -/

def dquote : Char := Char.ofNat 34
def backslash : Char := Char.ofNat 92
def comma : Char := Char.ofNat 44
def colon : Char := Char.ofNat 58
def minus : Char := Char.ofNat 45
def lbrace : Char := Char.ofNat 123
def rbrace : Char := Char.ofNat 125
def letterU : Char := Char.ofNat 117

/-- Lower-case hexadecimal digit of a number below 16. -/
def hexDigit (n : Nat) : Char :=
  if n < 10 then Char.ofNat (48 + n) else Char.ofNat (87 + n)

/-- Value of a hexadecimal digit. -/
def hexValue (c : Char) : Nat :=
  if c.toNat < 58 then c.toNat - 48
  else if c.toNat < 71 then c.toNat - 55
  else c.toNat - 87

/-- The text `encoding/json` writes for one character of a string: quote and
backslash get a backslash, line feed, carriage return and tab their letter,
other control characters and `<`, `>`, `&` the form `\u00XX`, the two
separators U+2028 and U+2029 the form `\u202X`. -/
def escapeChar (c : Char) : List Char :=
  if c = dquote then [backslash, dquote]
  else if c = backslash then [backslash, backslash]
  else if c.toNat = 10 then [backslash, Char.ofNat 110]
  else if c.toNat = 13 then [backslash, Char.ofNat 114]
  else if c.toNat = 9 then [backslash, Char.ofNat 116]
  else if c.toNat < 32 ∨ c.toNat = 60 ∨ c.toNat = 62 ∨ c.toNat = 38 then
    [backslash, letterU, Char.ofNat 48, Char.ofNat 48, hexDigit (c.toNat / 16),
      hexDigit (c.toNat % 16)]
  else if c.toNat = 8232 ∨ c.toNat = 8233 then
    [backslash, letterU, Char.ofNat 50, Char.ofNat 48, Char.ofNat 50, hexDigit (c.toNat % 16)]
  else [c]

/-- The characters of a JSON string literal, without the opening quote. -/
def quoteTail : List Char → List Char
  | [] => [dquote]
  | c :: cs => escapeChar c ++ quoteTail cs

/-- The character a one-letter escape stands for. -/
def unescapeLetter (e : Char) : Option Char :=
  if e = dquote then some dquote
  else if e = backslash then some backslash
  else if e.toNat = 47 then some (Char.ofNat 47)
  else if e.toNat = 98 then some (Char.ofNat 8)
  else if e.toNat = 102 then some (Char.ofNat 12)
  else if e.toNat = 110 then some (Char.ofNat 10)
  else if e.toNat = 114 then some (Char.ofNat 13)
  else if e.toNat = 116 then some (Char.ofNat 9)
  else none

/-- Reads a JSON string literal whose opening quote has been consumed: the
string and the input left after the closing quote. -/
def unquoteTail : List Char → Option (List Char × List Char)
  | [] => none
  | c :: cs =>
    if c = dquote then some ([], cs)
    else if c = backslash then
      match cs with
      | [] => none
      | e :: rest =>
        if e = letterU then
          match rest with
          | a :: b :: x :: y :: rest4 =>
            (unquoteTail rest4).map (fun p =>
              (Char.ofNat (((hexValue a * 16 + hexValue b) * 16 + hexValue x) * 16 + hexValue y)
                :: p.1, p.2))
          | _ => none
        else
          match unescapeLetter e with
          | some x => (unquoteTail rest).map (fun p => (x :: p.1, p.2))
          | none => none
    else (unquoteTail cs).map (fun p => (c :: p.1, p.2))

/-- Decimal text of a natural number. -/
def natText (n : Nat) : List Char :=
  if n = 0 then [Char.ofNat 48] else (Nat.digits 10 n).reverse.map (fun d => Char.ofNat (48 + d))

/-- Decimal text of an integer. -/
def intText : Int → List Char
  | Int.ofNat n => natText n
  | Int.negSucc n => minus :: natText (n + 1)

def isDigit (c : Char) : Bool := decide (48 ≤ c.toNat) && decide (c.toNat ≤ 57)

/-- Reads a non-empty run of decimal digits. -/
def parseNat (cs : List Char) : Option (Nat × List Char) :=
  if cs.takeWhile isDigit = [] then none
  else some (Nat.ofDigits 10 (((cs.takeWhile isDigit).map (fun c => c.toNat - 48)).reverse),
    cs.dropWhile isDigit)

/-- Reads an integer: an optional minus sign and a run of digits. -/
def parseInt : List Char → Option (Int × List Char)
  | [] => none
  | c :: cs =>
    if c = minus then (parseNat cs).map (fun p => (- (p.1 : Int), p.2))
    else (parseNat (c :: cs)).map (fun p => ((p.1 : Int), p.2))

/-- Removes a literal from the front of the input. -/
def stripLit : List Char → List Char → Option (List Char)
  | [], cs => some cs
  | _ :: _, [] => none
  | p :: ps, c :: cs => if p = c then stripLit ps cs else none

/-- The text `"name":` of an object key. -/
def keyText (name : String) : List Char := dquote :: (name.data ++ [dquote, colon])

/-- JSON text of a user: an object with the keys `id`, `username`, `email`. -/
def jsonMarshal (u : User) : String :=
  String.mk ((lbrace :: keyText "id") ++ (intText u.ID ++
    ((comma :: (keyText "username" ++ [dquote])) ++ (quoteTail u.Username.data ++
    ((comma :: (keyText "email" ++ [dquote])) ++ (quoteTail u.Email.data ++ [rbrace]))))))

/-- Reads the object `jsonMarshal` writes. -/
def parseUser (cs : List Char) : Option User :=
  match stripLit (lbrace :: keyText "id") cs with
  | none => none
  | some cs1 =>
    match parseInt cs1 with
    | none => none
    | some (id, cs2) =>
      match stripLit (comma :: (keyText "username" ++ [dquote])) cs2 with
      | none => none
      | some cs3 =>
        match unquoteTail cs3 with
        | none => none
        | some (name, cs4) =>
          match stripLit (comma :: (keyText "email" ++ [dquote])) cs4 with
          | none => none
          | some cs5 =>
            match unquoteTail cs5 with
            | none => none
            | some (email, cs6) =>
              if cs6 = [rbrace] then some ⟨id, String.mk name, String.mk email⟩ else none

/-- The user read from a JSON text; the zero user when the text is not an
object written by `jsonMarshal`. -/
def jsonUnmarshal (val : String) : User := (parseUser val.data).getD ⟨0, "", ""⟩

/-- The codec of JSON texts. -/
def jsonCodec : Codec := ⟨jsonMarshal, jsonUnmarshal⟩

/-! ## Lemmas on the table and the key space -/

/-! ### The JSON codec reads back what it wrote -/

theorem stripLit_append (p r : List Char) : stripLit p (p ++ r) = some r := by
  induction p with
  | nil => cases r <;> rfl
  | cons a p ih => simp [stripLit, ih]

theorem hexValue_hexDigit (k : Nat) (hk : k < 16) : hexValue (hexDigit k) = k := by
  interval_cases k <;> decide

theorem unquoteTail_cons (c : Char) (cs : List Char) :
    unquoteTail (c :: cs) =
      if c = dquote then some ([], cs)
      else if c = backslash then
        match cs with
        | [] => none
        | e :: rest =>
          if e = letterU then
            match rest with
            | a :: b :: x :: y :: rest4 =>
              (unquoteTail rest4).map (fun p =>
                (Char.ofNat (((hexValue a * 16 + hexValue b) * 16 + hexValue x) * 16 + hexValue y)
                  :: p.1, p.2))
            | _ => none
          else
            match unescapeLetter e with
            | some x => (unquoteTail rest).map (fun p => (x :: p.1, p.2))
            | none => none
      else (unquoteTail cs).map (fun p => (c :: p.1, p.2)) := by
  conv_lhs => unfold unquoteTail

theorem unquoteTail_escapeChar (c : Char) (t : List Char) :
    unquoteTail (escapeChar c ++ t) = (unquoteTail t).map (fun p => (c :: p.1, p.2)) := by
  have e1 : backslash ≠ dquote := by decide
  have e2 : dquote ≠ letterU := by decide
  have e3 : backslash ≠ letterU := by decide
  have hc : Char.ofNat c.toNat = c := Char.ofNat_toNat c
  unfold escapeChar
  split_ifs with h1 h2 h3 h4 h5 h6 h7
  · subst h1
    simp [unquoteTail_cons, unescapeLetter, e1, e2]
  · subst h2
    simp [unquoteTail_cons, unescapeLetter, e1, e3]
  · rw [h3] at hc
    rw [← hc]
    simp only [List.cons_append, List.nil_append, unquoteTail_cons, if_neg e1, if_true]
    rfl
  · rw [h4] at hc
    rw [← hc]
    simp only [List.cons_append, List.nil_append, unquoteTail_cons, if_neg e1, if_true]
    rfl
  · rw [h5] at hc
    rw [← hc]
    simp only [List.cons_append, List.nil_append, unquoteTail_cons, if_neg e1, if_true]
    rfl
  · have hlt : c.toNat < 64 := by omega
    have hd1 : hexValue (hexDigit (c.toNat / 16)) = c.toNat / 16 :=
      hexValue_hexDigit _ (by omega)
    have hd2 : hexValue (hexDigit (c.toNat % 16)) = c.toNat % 16 :=
      hexValue_hexDigit _ (by omega)
    have h0 : hexValue (Char.ofNat 48) = 0 := by decide
    simp only [List.cons_append, List.nil_append, unquoteTail_cons, if_neg e1, if_true,
      hd1, hd2, h0]
    have : ((0 * 16 + 0) * 16 + c.toNat / 16) * 16 + c.toNat % 16 = c.toNat := by omega
    rw [this, hc]
  · have hd2 : hexValue (hexDigit (c.toNat % 16)) = c.toNat % 16 :=
      hexValue_hexDigit _ (by omega)
    have h0 : hexValue (Char.ofNat 48) = 0 := by decide
    have h2 : hexValue (Char.ofNat 50) = 2 := by decide
    simp only [List.cons_append, List.nil_append, unquoteTail_cons, if_neg e1, if_true,
      hd2, h0, h2]
    have : ((2 * 16 + 0) * 16 + 2) * 16 + c.toNat % 16 = c.toNat := by omega
    rw [this, hc]
  · simp [unquoteTail_cons, h1, h2]

theorem unquoteTail_quoteTail (s r : List Char) :
    unquoteTail (quoteTail s ++ r) = some (s, r) := by
  induction s with
  | nil => simp [quoteTail, unquoteTail_cons]
  | cons c s ih =>
    simp only [quoteTail, List.append_assoc]
    rw [unquoteTail_escapeChar, ih]
    rfl

theorem takeWhile_append_stop {p : Char → Bool} (l : List Char) (a : Char) (r : List Char)
    (hl : ∀ x ∈ l, p x = true) (ha : p a = false) :
    (l ++ a :: r).takeWhile p = l ∧ (l ++ a :: r).dropWhile p = a :: r := by
  induction l with
  | nil => simp [List.takeWhile, List.dropWhile, ha]
  | cons x l ih =>
    have hx : p x = true := hl x (List.mem_cons_self _ _)
    have := ih (fun y hy => hl y (List.mem_cons_of_mem _ hy))
    simp [List.takeWhile, List.dropWhile, hx, this]

theorem toNat_digitChar (d : Nat) (hd : d < 10) : (Char.ofNat (48 + d)).toNat = 48 + d := by
  interval_cases d <;> rfl

theorem natText_digits (n : Nat) : ∀ x ∈ natText n, isDigit x = true := by
  intro x hx
  unfold natText at hx
  split_ifs at hx with h0
  · simp at hx; subst hx; decide
  · simp only [List.mem_map, List.mem_reverse] at hx
    obtain ⟨d, hd, rfl⟩ := hx
    have hlt : d < 10 := Nat.digits_lt_base (by norm_num) hd
    simp [isDigit, toNat_digitChar d hlt]
    omega

theorem natText_ne_nil (n : Nat) : natText n ≠ [] := by
  unfold natText
  split_ifs with h0
  · simp
  · simp [Nat.digits_ne_nil_iff_ne_zero, h0]

theorem natText_value (n : Nat) :
    Nat.ofDigits 10 (((natText n).map (fun c => c.toNat - 48)).reverse) = n := by
  unfold natText
  split_ifs with h0
  · subst h0; decide
  · rw [List.map_map, ← List.map_reverse, List.reverse_reverse]
    have : (Nat.digits 10 n).map ((fun c : Char => c.toNat - 48) ∘ fun d => Char.ofNat (48 + d))
        = Nat.digits 10 n := by
      conv_rhs => rw [← List.map_id (Nat.digits 10 n)]
      apply List.map_congr_left
      intro d hd
      have hlt : d < 10 := Nat.digits_lt_base (by norm_num) hd
      simp [toNat_digitChar d hlt]
    rw [this, Nat.ofDigits_digits]

theorem parseNat_natText (n : Nat) (a : Char) (r : List Char) (ha : isDigit a = false) :
    parseNat (natText n ++ a :: r) = some (n, a :: r) := by
  obtain ⟨h1, h2⟩ := takeWhile_append_stop (natText n) a r (natText_digits n) ha
  unfold parseNat
  rw [h1, h2, if_neg (natText_ne_nil n), natText_value]

theorem parseInt_intText (i : Int) (a : Char) (r : List Char) (ha : isDigit a = false) :
    parseInt (intText i ++ a :: r) = some (i, a :: r) := by
  cases i with
  | ofNat n =>
    simp only [intText]
    cases hnt : natText n with
    | nil => exact absurd hnt (natText_ne_nil n)
    | cons x xs =>
      have hx : isDigit x = true := natText_digits n x (by rw [hnt]; exact List.mem_cons_self _ _)
      have hne : x ≠ minus := by
        intro h; rw [h] at hx; revert hx; decide
      simp only [List.cons_append, parseInt, if_neg hne]
      rw [← List.cons_append, ← hnt, parseNat_natText n a r ha]
      rfl
  | negSucc n =>
    simp only [intText, List.cons_append, parseInt, if_true]
    rw [parseNat_natText (n + 1) a r ha]
    rfl

theorem jsonCodec_roundtrip (u : User) : jsonCodec.unmarshal (jsonCodec.marshal u) = u := by
  have hc : isDigit comma = false := by decide
  have hint : ∀ (i : Int) (l r : List Char),
      parseInt (intText i ++ ((comma :: l) ++ r)) = some (i, (comma :: l) ++ r) :=
    fun i l r => parseInt_intText i comma (l ++ r) hc
  simp only [jsonCodec, jsonUnmarshal, jsonMarshal, parseUser]
  rw [stripLit_append]
  simp only []
  rw [hint]
  simp only [stripLit_append, unquoteTail_quoteTail, if_true, Option.getD_some]

/-! ### Table and key space -/

theorem selectByUsername_eq_none {db : DB} {U : String}
    (h : ∀ r ∈ db.rows, r.Username ≠ U) : db.selectByUsername U = Option.none := by
  unfold DB.selectByUsername
  rw [List.find?_eq_none]
  intro r hr
  simpa using h r hr

theorem selectByUsername_of_mem {db : DB} {U : String} {r : User}
    (hr : r ∈ db.rows) (hU : r.Username = U) : ∃ r0, db.selectByUsername U = some r0 := by
  cases hsel : db.selectByUsername U with
  | some r0 => exact ⟨r0, rfl⟩
  | none =>
    unfold DB.selectByUsername at hsel
    rw [List.find?_eq_none] at hsel
    have := hsel r hr
    simp [hU] at this

theorem filter_ne_eq_self {rows : List User} {U : String}
    (h : ∀ r ∈ rows, r.Username ≠ U) :
    rows.filter (fun r => decide (r.Username ≠ U)) = rows := by
  rw [List.filter_eq_self]
  intro r hr
  simpa using h r hr

theorem filter_eq_length_zero {rows : List User} {U : String}
    (h : ∀ r ∈ rows, r.Username ≠ U) :
    (rows.filter (fun r => decide (r.Username = U))).length = 0 := by
  rw [List.length_eq_zero, List.filter_eq_nil_iff]
  intro r hr
  simpa using h r hr

theorem filter_eq_length_pos {rows : List User} {U : String} {r : User}
    (hr : r ∈ rows) (hU : r.Username = U) :
    (rows.filter (fun r => decide (r.Username = U))).length ≠ 0 := by
  intro h0
  rw [List.length_eq_zero, List.filter_eq_nil_iff] at h0
  have := h0 r hr
  simp [hU] at this

theorem entry_del_self (c : Cache) (U : String) : (c.del U).entry U = Option.none := by
  unfold Cache.entry Cache.del
  rw [Option.map_eq_none', List.find?_eq_none]
  intro e he
  have := (List.mem_filter.mp he).2
  simpa using this

theorem selectByUsername_of_nodup {db : DB} {r : User}
    (hr : r ∈ db.rows) (huniq : (db.rows.map User.Username).Nodup) :
    db.selectByUsername r.Username = some r := by
  unfold DB.selectByUsername
  generalize db.rows = rows at hr huniq
  induction rows with
  | nil => cases hr
  | cons x rows ih =>
    rw [List.map_cons, List.nodup_cons] at huniq
    rcases List.mem_cons.mp hr with h | h
    · subst h; simp
    · have hne : x.Username ≠ r.Username := by
        intro heq
        exact huniq.1 (heq ▸ List.mem_map_of_mem User.Username h)
      rw [List.find?_cons_of_neg _ (by simpa using hne)]
      exact ih h huniq.2

theorem del_eq_self_of_entry_none {c : Cache} {U : String}
    (h : c.entry U = Option.none) : c.filter (fun e => decide (e.1 ≠ U)) = c := by
  unfold Cache.entry at h
  rw [Option.map_eq_none', List.find?_eq_none] at h
  rw [List.filter_eq_self]
  intro e he
  simpa using h e he

theorem entry_set_self (c : Cache) (U v : String) (ttl : Nat) :
    (c.set U v ttl).entry U = some ⟨v, ttl⟩ := by
  simp [Cache.entry, Cache.set]

theorem entry_set_other (c : Cache) (U v k : String) (ttl : Nat) (hk : k ≠ U) :
    (c.set U v ttl).entry k = c.entry k := by
  have hk1 : ¬ U = k := fun h => hk h.symm
  simp only [Cache.entry, Cache.set]
  rw [List.find?_cons_of_neg _ (by simpa using hk1)]
  congr 1
  induction c with
  | nil => rfl
  | cons e c ih =>
    by_cases he : e.1 = U
    · have hek : ¬ e.1 = k := fun h => hk (h ▸ he)
      rw [List.filter_cons_of_neg (by simpa using he),
        List.find?_cons_of_neg _ (by simpa using hek)]
      exact ih
    · rw [List.filter_cons_of_pos (by simpa using he)]
      by_cases hek : e.1 = k
      · rw [List.find?_cons_of_pos _ (by simpa using hek),
          List.find?_cons_of_pos _ (by simpa using hek)]
      · rw [List.find?_cons_of_neg _ (by simpa using hek),
          List.find?_cons_of_neg _ (by simpa using hek)]
        exact ih

theorem getUser_hit (cd : Codec) (s : State) (U v : String) (f : Faults)
    (h : redisGet s.redisClient U f = some v) :
    getUser cd s U f = ⟨s, ⟨StatusOK, Body.user (cd.unmarshal v)⟩, [Call.redisGet U]⟩ := by
  simp [getUser, h]

theorem getUser_miss_row (cd : Codec) (s : State) (U : String) (r : User) (f : Faults)
    (hget : redisGet s.redisClient U f = Option.none) (hdb : f.db = Option.none)
    (hsel : s.db.selectByUsername U = some r) :
    getUser cd s U f
      = ⟨⟨s.db, redisSet s.redisClient U (cd.marshal r) Hour f⟩, ⟨StatusOK, Body.user r⟩,
          [Call.redisGet U, Call.dbQueryRow sqlSelectOne [U],
            Call.redisSet U (cd.marshal r) Hour]⟩ := by
  simp [getUser, hget, dbQueryRow, hdb, hsel]

theorem getUser_miss_no_row (cd : Codec) (s : State) (U : String) (f : Faults)
    (hcache : s.redisClient.entry U = Option.none)
    (hrow : ∀ r ∈ s.db.rows, r.Username ≠ U) (hdb : f.db = Option.none) :
    getUser cd s U f
      = ⟨s, ⟨StatusNotFound, Body.error "User not found"⟩,
          [Call.redisGet U, Call.dbQueryRow sqlSelectOne [U]]⟩ := by
  have hget : redisGet s.redisClient U f = Option.none := by
    unfold redisGet; split <;> simp [hcache]
  simp [getUser, hget, dbQueryRow, hdb, selectByUsername_eq_none hrow]

theorem getUser_db (cd : Codec) (s : State) (U : String) (f : Faults) :
    (getUser cd s U f).state.db = s.db := by
  unfold getUser
  split
  · rfl
  · split
    · split <;> rfl
    · rfl

theorem reads_db (cd : Codec) (U : String) (fs : List Faults) :
    ∀ s : State, (reads cd s U fs).db = s.db := by
  induction fs with
  | nil => intro s; rfl
  | cons f fs ih => intro s; simp only [reads]; rw [ih, getUser_db]

theorem getUsers_state (t : State) (f : Faults) : (getUsers t f).state = t := by
  unfold getUsers; split <;> rfl

theorem createUser_redisClient (t : State) (body : Except String User) (f : Faults) :
    (createUser t body f).state.redisClient = t.redisClient := by
  unfold createUser
  split
  · rfl
  · split <;> rfl

theorem deleteUser_no_row (t : State) (U : String) (f : Faults)
    (hdb : f.db = Option.none) (hrow : ∀ r ∈ t.db.rows, r.Username ≠ U) :
    deleteUser t U f
      = ⟨t, ⟨StatusNotFound, Body.error "User not found"⟩, [Call.dbExec sqlDelete [U]]⟩ := by
  unfold deleteUser dbExecDelete
  rw [hdb]
  simp only [filter_eq_length_zero hrow, filter_ne_eq_self hrow, if_true]

theorem deleteUser_row (t : State) (U : String) (f : Faults) (r : User)
    (hdb : f.db = Option.none) (hr : r ∈ t.db.rows) (hU : r.Username = U) :
    deleteUser t U f
      = ⟨⟨⟨t.db.rows.filter (fun r => decide (r.Username ≠ U)), t.db.autoInc⟩,
            redisDel t.redisClient U f⟩,
          ⟨StatusNoContent, Body.empty⟩, [Call.dbExec sqlDelete [U], Call.redisDel U]⟩ := by
  unfold deleteUser dbExecDelete
  rw [hdb]
  simp only [filter_eq_length_pos hr hU, if_false]

/-! ## `updateUser` on a username without a row (C1) -/

/-- C1, evaluated on the code: with an empty `users` table and an empty key
space, `PUT /user/bob` with email `x@x.com` is answered `200 OK` with the
bound body, not `404 Not Found`, and `redisClient.Del` is issued for `bob`;
with an entry under `bob` in the key space, that entry is removed. -/
theorem updateUser_missing_row_ok_and_del :
    updateUser ⟨DB.init, []⟩ "bob" (Except.ok ⟨0, "", "x@x.com"⟩) Faults.none
      = ⟨⟨DB.init, []⟩, ⟨StatusOK, Body.user ⟨0, "", "x@x.com"⟩⟩,
          [Call.dbExec sqlUpdate ["x@x.com", "bob"], Call.redisDel "bob"]⟩ ∧
    (updateUser ⟨DB.init, [("bob", ⟨"stale", Hour⟩)]⟩ "bob"
      (Except.ok ⟨0, "", "x@x.com"⟩) Faults.none).state.redisClient = [] := by
  decide

/-! ## The record `updateUser` returns (C9) -/

/-- C9, evaluated on the code: with the row `(1, alice, a@x.com)` in the
table, `PUT /user/alice` with body `(username mallory, email a2@x.com)` sets
the email of the row of `alice` to `a2@x.com` and answers `200 OK` with the
bound body, a record of id `0` and username `mallory`, not the updated row. -/
theorem updateUser_returns_bound_body :
    updateUser ⟨⟨[⟨1, "alice", "a@x.com"⟩], 2⟩, []⟩ "alice"
        (Except.ok ⟨0, "mallory", "a2@x.com"⟩) Faults.none
      = ⟨⟨⟨[⟨1, "alice", "a2@x.com"⟩], 2⟩, []⟩,
          ⟨StatusOK, Body.user ⟨0, "mallory", "a2@x.com"⟩⟩,
          [Call.dbExec sqlUpdate ["a2@x.com", "alice"], Call.redisDel "alice"]⟩ := by
  decide

/-! ## `createUser` on an existing username (C4) -/

/-- C4 as stated fails: in the table holding `(1, alice, a@x.com)`, the answer
to `create(alice, b@x.com)` when the insert hits the `UNIQUE` constraint has
the same status, `500`, as the answer to the same request when the database
call fails with a connection error; both bodies are the text of the error, and
the status does not tell the two apart. -/
theorem createUser_conflict_status_not_distinct :
    (createUser ⟨⟨[⟨1, "alice", "a@x.com"⟩], 2⟩, []⟩
        (Except.ok ⟨0, "alice", "b@x.com"⟩) Faults.none).resp
      = ⟨StatusInternalServerError, Body.error (DbError.duplicateEntry "alice").Error⟩ ∧
    (createUser ⟨⟨[⟨1, "alice", "a@x.com"⟩], 2⟩, []⟩
        (Except.ok ⟨0, "alice", "b@x.com"⟩)
        ⟨some "invalid connection", false, false, false⟩).resp
      = ⟨StatusInternalServerError, Body.error "invalid connection"⟩ ∧
    (createUser ⟨⟨[⟨1, "alice", "a@x.com"⟩], 2⟩, []⟩
        (Except.ok ⟨0, "alice", "b@x.com"⟩) Faults.none).resp.status
      = (createUser ⟨⟨[⟨1, "alice", "a@x.com"⟩], 2⟩, []⟩
        (Except.ok ⟨0, "alice", "b@x.com"⟩)
        ⟨some "invalid connection", false, false, false⟩).resp.status := by
  decide

/-- C4, amended: when the table holds a row for `U` and the database call
itself goes through, `createUser` with a body of username `U` answers
`500 Internal Server Error` with the text of the duplicate-entry error, the
status it also gives for every other failure of the database call; table and
key space are unchanged and the only call issued is the `INSERT`. -/
theorem createUser_existing_username (s : State) (user : User) (f : Faults) (r : User)
    (msg : String)
    (hr : r ∈ s.db.rows) (hU : r.Username = user.Username) (hdb : f.db = Option.none) :
    createUser s (Except.ok user) f
      = ⟨s, ⟨StatusInternalServerError, Body.error (DbError.duplicateEntry user.Username).Error⟩,
          [Call.dbExec sqlInsert [user.Username, user.Email]]⟩ ∧
    (createUser s (Except.ok user) ⟨some msg, f.redisGet, f.redisSet, f.redisDel⟩).resp.status
      = (createUser s (Except.ok user) f).resp.status := by
  obtain ⟨r0, hr0⟩ := selectByUsername_of_mem hr hU
  simp [createUser, dbExecInsert, hdb, hr0]

theorem createUser_existing_username_witness :
    createUser ⟨⟨[⟨1, "alice", "a@x.com"⟩], 2⟩, []⟩ (Except.ok ⟨0, "alice", "b@x.com"⟩) Faults.none
      = ⟨⟨⟨[⟨1, "alice", "a@x.com"⟩], 2⟩, []⟩,
          ⟨StatusInternalServerError, Body.error (DbError.duplicateEntry "alice").Error⟩,
          [Call.dbExec sqlInsert ["alice", "b@x.com"]]⟩ ∧
    (createUser ⟨⟨[⟨1, "alice", "a@x.com"⟩], 2⟩, []⟩ (Except.ok ⟨0, "alice", "b@x.com"⟩)
        ⟨some "invalid connection", false, false, false⟩).resp.status
      = (createUser ⟨⟨[⟨1, "alice", "a@x.com"⟩], 2⟩, []⟩ (Except.ok ⟨0, "alice", "b@x.com"⟩)
        Faults.none).resp.status :=
  createUser_existing_username ⟨⟨[⟨1, "alice", "a@x.com"⟩], 2⟩, []⟩ ⟨0, "alice", "b@x.com"⟩
    Faults.none ⟨1, "alice", "a@x.com"⟩ "invalid connection" (by decide) (by decide) (by decide)

/-! ## `getUser` on an unknown username (C6) -/

/-- C6: when the key space has no entry under `U`, the table has no row for
`U` and the database call goes through, `getUser` answers `404 Not Found`,
leaves table and key space as they were, and issues no `redisClient.Set`: its
calls are the `Get` and the `SELECT`. -/
theorem getUser_unknown_not_found (cd : Codec) (s : State) (U : String) (f : Faults)
    (hcache : s.redisClient.entry U = Option.none)
    (hrow : ∀ r ∈ s.db.rows, r.Username ≠ U) (hdb : f.db = Option.none) :
    getUser cd s U f
      = ⟨s, ⟨StatusNotFound, Body.error "User not found"⟩,
          [Call.redisGet U, Call.dbQueryRow sqlSelectOne [U]]⟩ :=
  getUser_miss_no_row cd s U f hcache hrow hdb

theorem getUser_unknown_not_found_witness :
    getUser jsonCodec ⟨⟨[⟨1, "alice", "a@x.com"⟩], 2⟩, [("alice", ⟨"x", Hour⟩)]⟩ "bob"
        Faults.none
      = ⟨⟨⟨[⟨1, "alice", "a@x.com"⟩], 2⟩, [("alice", ⟨"x", Hour⟩)]⟩,
          ⟨StatusNotFound, Body.error "User not found"⟩,
          [Call.redisGet "bob", Call.dbQueryRow sqlSelectOne ["bob"]]⟩ :=
  getUser_unknown_not_found jsonCodec
    ⟨⟨[⟨1, "alice", "a@x.com"⟩], 2⟩, [("alice", ⟨"x", Hour⟩)]⟩ "bob" Faults.none
    (by decide) (by decide) (by decide)

/-! ## `deleteUser` (C7) -/

/-- C7: let the database calls go through and the `Del` of `deleteUser`
succeed.  (1) If the table has no row for `U`, `deleteUser` answers
`404 Not Found`, leaves table and key space as they were and issues no
`redisClient.Del`.  (2) If the table has a row for `U`, `deleteUser` answers
`204 No Content` with an empty body; the rows left are exactly the rows of
other usernames and the entries left are exactly the entries under other
keys.  (3) After `createUser` for `U`, then `deleteUser` for `U`, both
`getUser` and a second `deleteUser` for `U` answer `404 Not Found`. -/
theorem deleteUser_contract (cd : Codec) (s : State) (U : String) (f f1 f2 f3 : Faults)
    (body : User)
    (hdb : f.db = Option.none) (hdel : f.redisDel = false)
    (hbody : body.Username = U)
    (hdb1 : f1.db = Option.none) (hdb2 : f2.db = Option.none) (hdb3 : f3.db = Option.none) :
    ((∀ r ∈ s.db.rows, r.Username ≠ U) →
      deleteUser s U f
        = ⟨s, ⟨StatusNotFound, Body.error "User not found"⟩, [Call.dbExec sqlDelete [U]]⟩) ∧
    ((∃ r ∈ s.db.rows, r.Username = U) →
      (deleteUser s U f).resp = ⟨StatusNoContent, Body.empty⟩ ∧
      (∀ r, r ∈ (deleteUser s U f).state.db.rows ↔ r ∈ s.db.rows ∧ r.Username ≠ U) ∧
      (deleteUser s U f).state.db.rows = s.db.rows.filter (fun r => decide (r.Username ≠ U)) ∧
      (∀ e, e ∈ (deleteUser s U f).state.redisClient ↔ e ∈ s.redisClient ∧ e.1 ≠ U) ∧
      (deleteUser s U f).state.redisClient = s.redisClient.filter (fun e => decide (e.1 ≠ U))) ∧
    ((getUser cd (deleteUser (createUser s (Except.ok body) f1).state U f).state U f2).resp
        = ⟨StatusNotFound, Body.error "User not found"⟩ ∧
      (deleteUser (deleteUser (createUser s (Except.ok body) f1).state U f).state U f3).resp
        = ⟨StatusNotFound, Body.error "User not found"⟩) := by
  refine ⟨?_, ?_, ?_⟩
  · intro hrow
    exact deleteUser_no_row s U f hdb hrow
  · rintro ⟨r, hr, hU⟩
    rw [deleteUser_row s U f r hdb hr hU]
    simp [hdel, redisDel, Cache.del, List.mem_filter]
  · -- the state after create and delete has neither a row nor an entry for `U`
    obtain ⟨r, hr, hU⟩ :
        ∃ r ∈ (createUser s (Except.ok body) f1).state.db.rows, r.Username = U := by
      cases hsel : s.db.selectByUsername U with
      | some r0 =>
        have hmem := List.mem_of_find?_eq_some hsel
        have hname : r0.Username = U := by
          have := List.find?_some hsel
          simpa using this
        refine ⟨r0, ?_, hname⟩
        simpa [createUser, dbExecInsert, hdb1, hbody, hsel] using hmem
      | none =>
        refine ⟨⟨Int.ofNat s.db.autoInc, U, body.Email⟩, ?_, rfl⟩
        simp [createUser, dbExecInsert, hdb1, hbody, hsel]
    rw [deleteUser_row _ U f r hdb hr hU]
    have hrows : ∀ r ∈ (createUser s (Except.ok body) f1).state.db.rows.filter
        (fun r => decide (r.Username ≠ U)), r.Username ≠ U := by
      intro r0 h0
      simpa using (List.mem_filter.mp h0).2
    have hentry : (redisDel (createUser s (Except.ok body) f1).state.redisClient U f).entry U
        = Option.none := by
      simp only [redisDel, hdel]
      exact entry_del_self _ _
    constructor
    · rw [getUser_miss_no_row cd _ U f2 hentry hrows hdb2]
    · rw [deleteUser_no_row _ U f3 hdb3 hrows]

theorem deleteUser_contract_witness :
    deleteUser ⟨⟨[⟨1, "alice", "a@x.com"⟩], 2⟩, [("alice", ⟨"x", Hour⟩)]⟩ "bob" Faults.none
      = ⟨⟨⟨[⟨1, "alice", "a@x.com"⟩], 2⟩, [("alice", ⟨"x", Hour⟩)]⟩,
          ⟨StatusNotFound, Body.error "User not found"⟩, [Call.dbExec sqlDelete ["bob"]]⟩ ∧
    (deleteUser ⟨⟨[⟨1, "alice", "a@x.com"⟩, ⟨2, "bob", "b@x.com"⟩], 3⟩,
        [("alice", ⟨"x", Hour⟩), ("bob", ⟨"y", Hour⟩)]⟩ "alice" Faults.none).resp
      = ⟨StatusNoContent, Body.empty⟩ ∧
    (getUser jsonCodec
        (deleteUser
          (createUser ⟨DB.init, [("alice", ⟨"x", Hour⟩)]⟩
            (Except.ok ⟨0, "alice", "a@x.com"⟩) Faults.none).state
          "alice" Faults.none).state
        "alice" Faults.none).resp
      = ⟨StatusNotFound, Body.error "User not found"⟩ ∧
    (deleteUser
        (deleteUser
          (createUser ⟨DB.init, [("alice", ⟨"x", Hour⟩)]⟩
            (Except.ok ⟨0, "alice", "a@x.com"⟩) Faults.none).state
          "alice" Faults.none).state
        "alice" Faults.none).resp
      = ⟨StatusNotFound, Body.error "User not found"⟩ :=
  ⟨(deleteUser_contract jsonCodec
      ⟨⟨[⟨1, "alice", "a@x.com"⟩], 2⟩, [("alice", ⟨"x", Hour⟩)]⟩ "bob"
      Faults.none Faults.none Faults.none Faults.none ⟨0, "bob", "b@x.com"⟩
      (by decide) (by decide) (by decide) (by decide) (by decide) (by decide)).1 (by decide),
   ((deleteUser_contract jsonCodec
      ⟨⟨[⟨1, "alice", "a@x.com"⟩, ⟨2, "bob", "b@x.com"⟩], 3⟩,
        [("alice", ⟨"x", Hour⟩), ("bob", ⟨"y", Hour⟩)]⟩ "alice"
      Faults.none Faults.none Faults.none Faults.none ⟨0, "alice", "a@x.com"⟩
      (by decide) (by decide) (by decide) (by decide) (by decide) (by decide)).2.1
        ⟨⟨1, "alice", "a@x.com"⟩, by decide, by decide⟩).1,
   (deleteUser_contract jsonCodec ⟨DB.init, [("alice", ⟨"x", Hour⟩)]⟩ "alice"
      Faults.none Faults.none Faults.none Faults.none ⟨0, "alice", "a@x.com"⟩
      (by decide) (by decide) (by decide) (by decide) (by decide) (by decide)).2.2⟩

/-! ## A failed `Get` is a miss (C8) -/

/-- C8: when `redisClient.Get` fails, the response of `getUser` is the
response it gives, on the same table and with the same outcome of the
database call, when `Get` goes through and the key space has no entry under
`U`.  It is fixed by the outcome of the `SELECT` alone: the row with `200`,
`404` when no row matches, `500` with the text of the database error
otherwise. -/
theorem getUser_get_failure_is_miss (cd : Codec) (db : DB) (c c0 : Cache) (U : String)
    (f : Faults) (hfail : f.redisGet = true) (hmiss : c0.entry U = Option.none) :
    (getUser cd ⟨db, c⟩ U f).resp
        = (getUser cd ⟨db, c0⟩ U ⟨f.db, false, f.redisSet, f.redisDel⟩).resp ∧
    (getUser cd ⟨db, c⟩ U f).resp
        = (match dbQueryRow db U f with
          | Except.ok r => ⟨StatusOK, Body.user r⟩
          | Except.error DbError.ErrNoRows => ⟨StatusNotFound, Body.error "User not found"⟩
          | Except.error e => ⟨StatusInternalServerError, Body.error e.Error⟩) := by
  have h1 : redisGet c U f = Option.none := by simp [redisGet, hfail]
  have h2 : redisGet c0 U ⟨f.db, false, f.redisSet, f.redisDel⟩ = Option.none := by
    simp [redisGet, hmiss]
  have h3 : dbQueryRow db U ⟨f.db, false, f.redisSet, f.redisDel⟩ = dbQueryRow db U f := rfl
  simp only [getUser, h1, h2, h3]
  cases hq : dbQueryRow db U f with
  | ok r => simp
  | error e => cases e <;> simp

theorem getUser_get_failure_is_miss_witness :
    (getUser jsonCodec ⟨⟨[⟨1, "alice", "a@x.com"⟩], 2⟩, [("alice", ⟨"x", Hour⟩)]⟩ "alice"
        ⟨Option.none, true, false, false⟩).resp
      = (getUser jsonCodec ⟨⟨[⟨1, "alice", "a@x.com"⟩], 2⟩, []⟩ "alice"
        ⟨Option.none, false, false, false⟩).resp ∧
    (getUser jsonCodec ⟨⟨[⟨1, "alice", "a@x.com"⟩], 2⟩, [("alice", ⟨"x", Hour⟩)]⟩ "alice"
        ⟨Option.none, true, false, false⟩).resp
      = (match dbQueryRow ⟨[⟨1, "alice", "a@x.com"⟩], 2⟩ "alice"
            ⟨Option.none, true, false, false⟩ with
          | Except.ok r => ⟨StatusOK, Body.user r⟩
          | Except.error DbError.ErrNoRows => ⟨StatusNotFound, Body.error "User not found"⟩
          | Except.error e => ⟨StatusInternalServerError, Body.error e.Error⟩) :=
  getUser_get_failure_is_miss jsonCodec ⟨[⟨1, "alice", "a@x.com"⟩], 2⟩
    [("alice", ⟨"x", Hour⟩)] [] "alice" ⟨Option.none, true, false, false⟩ (by decide) (by decide)

/-! ## `getUser` on a cache miss with a row in the table (C5) -/

/-- C5: let the codec read back what it writes, the key space have no entry
under `U`, the table hold a row `r` of username `U` (usernames being unique
in the table), and the database call and the `Set` go through.  Then
`getUser` answers `200 OK` with `r`, leaves the table as it was, and the key
space after it is the key space before it with one more entry: key `U`,
value the serialization of `r` (which deserializes to `r`), time to live
`time.Hour`, that is 3600 seconds; the entry of every other key is as
before. -/
theorem getUser_miss_populates (cd : Codec) (s : State) (U : String) (r : User) (f : Faults)
    (k : String)
    (hrt : ∀ u, cd.unmarshal (cd.marshal u) = u)
    (hmiss : s.redisClient.entry U = Option.none)
    (hr : r ∈ s.db.rows) (hU : r.Username = U)
    (huniq : (s.db.rows.map User.Username).Nodup)
    (hdb : f.db = Option.none) (hset : f.redisSet = false) (hk : k ≠ U) :
    (getUser cd s U f).resp = ⟨StatusOK, Body.user r⟩ ∧
    (getUser cd s U f).state.db = s.db ∧
    (getUser cd s U f).state.redisClient = (U, ⟨cd.marshal r, Hour⟩) :: s.redisClient ∧
    cd.unmarshal (cd.marshal r) = r ∧
    Hour = 3600 * 1000000000 ∧
    (getUser cd s U f).state.redisClient.entry k = s.redisClient.entry k := by
  have hget : redisGet s.redisClient U f = Option.none := by
    unfold redisGet; split <;> simp [hmiss]
  have hsel : s.db.selectByUsername U = some r := hU ▸ selectByUsername_of_nodup hr huniq
  rw [getUser_miss_row cd s U r f hget hdb hsel]
  refine ⟨rfl, rfl, ?_, hrt r, by decide, ?_⟩
  · simp only [redisSet, hset, Cache.set]
    rw [del_eq_self_of_entry_none hmiss]
    rfl
  · simp only [redisSet, hset]
    exact entry_set_other _ _ _ _ _ hk

theorem getUser_miss_populates_witness :
    (getUser jsonCodec ⟨⟨[⟨1, "alice", "a@x.com"⟩], 2⟩, []⟩ "alice" Faults.none).resp
      = ⟨StatusOK, Body.user ⟨1, "alice", "a@x.com"⟩⟩ ∧
    (getUser jsonCodec ⟨⟨[⟨1, "alice", "a@x.com"⟩], 2⟩, []⟩ "alice" Faults.none).state.db
      = ⟨[⟨1, "alice", "a@x.com"⟩], 2⟩ ∧
    (getUser jsonCodec ⟨⟨[⟨1, "alice", "a@x.com"⟩], 2⟩, []⟩ "alice" Faults.none).state.redisClient
      = [("alice", ⟨jsonCodec.marshal ⟨1, "alice", "a@x.com"⟩, Hour⟩)] ∧
    jsonCodec.unmarshal (jsonCodec.marshal ⟨1, "alice", "a@x.com"⟩) = ⟨1, "alice", "a@x.com"⟩ ∧
    Hour = 3600 * 1000000000 ∧
    Cache.entry
        (getUser jsonCodec ⟨⟨[⟨1, "alice", "a@x.com"⟩], 2⟩, []⟩ "alice" Faults.none).state.redisClient
        "bob"
      = Cache.entry [] "bob" :=
  getUser_miss_populates jsonCodec ⟨⟨[⟨1, "alice", "a@x.com"⟩], 2⟩, []⟩ "alice"
    ⟨1, "alice", "a@x.com"⟩ Faults.none "bob" jsonCodec_roundtrip (by decide) (by decide)
    (by decide) (by decide) (by decide) (by decide) (by decide)

/-! ## Repeated reads (C3) -/

theorem getUser_ok_entry (cd : Codec) (s : State) (U : String) (f : Faults)
    (hrt : ∀ u, cd.unmarshal (cd.marshal u) = u)
    (hok : (getUser cd s U f).resp.status = StatusOK) (hset : f.redisSet = false) :
    ∃ e, (getUser cd s U f).state.redisClient.entry U = some e ∧
      (getUser cd s U f).resp = ⟨StatusOK, Body.user (cd.unmarshal e.value)⟩ := by
  cases hget : redisGet s.redisClient U f with
  | some v =>
    rw [getUser_hit cd s U v f hget]
    unfold redisGet at hget
    split at hget
    · cases hget
    · cases hent : s.redisClient.entry U with
      | none => rw [hent] at hget; cases hget
      | some e =>
        rw [hent] at hget
        simp only [Option.map_some', Option.some.injEq] at hget
        exact ⟨e, rfl, by rw [hget]⟩
  | none =>
    cases hdb : f.db with
    | some msg =>
      have : (getUser cd s U f).resp.status = StatusInternalServerError := by
        simp [getUser, hget, dbQueryRow, hdb]
      rw [this] at hok
      exact absurd hok (by decide)
    | none =>
      cases hsel : s.db.selectByUsername U with
      | none =>
        have : (getUser cd s U f).resp.status = StatusNotFound := by
          simp [getUser, hget, dbQueryRow, hdb, hsel]
        rw [this] at hok
        exact absurd hok (by decide)
      | some r =>
        rw [getUser_miss_row cd s U r f hget hdb hsel]
        refine ⟨⟨cd.marshal r, Hour⟩, ?_, by rw [hrt r]⟩
        simp only [redisSet, hset]
        exact entry_set_self _ _ _ _

theorem entry_filter_ne (c : Cache) (U k : String) (hk : k ≠ U) :
    Cache.entry (c.filter (fun e => decide (e.1 ≠ U))) k = c.entry k := by
  simp only [Cache.entry]
  congr 1
  induction c with
  | nil => rfl
  | cons e c ih =>
    by_cases he : e.1 = U
    · have hek : ¬ e.1 = k := fun h => hk (h ▸ he)
      rw [List.filter_cons_of_neg (by simpa using he),
        List.find?_cons_of_neg _ (by simpa using hek)]
      exact ih
    · rw [List.filter_cons_of_pos (by simpa using he)]
      by_cases hek : e.1 = k
      · rw [List.find?_cons_of_pos _ (by simpa using hek),
          List.find?_cons_of_pos _ (by simpa using hek)]
      · rw [List.find?_cons_of_neg _ (by simpa using hek),
          List.find?_cons_of_neg _ (by simpa using hek)]
        exact ih

theorem entry_redisDel_other (c : Cache) (V U : String) (f : Faults) (h : U ≠ V) :
    (redisDel c V f).entry U = c.entry U := by
  unfold redisDel
  split
  · rfl
  · exact entry_filter_ne c V U h

theorem entry_elapse (c : Cache) (U : String) (e : CacheEntry) (d : Nat)
    (hent : c.entry U = some e) (hd : d < e.ttl) :
    (c.elapse d).entry U = some ⟨e.value, e.ttl - d⟩ := by
  induction c with
  | nil => simp [Cache.entry] at hent
  | cons x c ih =>
    unfold Cache.entry at hent
    by_cases hx : x.1 = U
    · rw [List.find?_cons_of_pos _ (by simpa using hx)] at hent
      simp only [Option.map_some', Option.some.injEq] at hent
      have hdx : d < x.2.ttl := by rw [hent]; exact hd
      simp only [Cache.elapse, List.filterMap_cons, hdx, if_true, Cache.entry]
      rw [List.find?_cons_of_pos _ (by simpa using hx)]
      simp [hent]
    · rw [List.find?_cons_of_neg _ (by simpa using hx)] at hent
      have ih2 := ih hent
      by_cases hdx : d < x.2.ttl
      · simp only [Cache.elapse, List.filterMap_cons, hdx, if_true, Cache.entry] at ih2 ⊢
        rw [List.find?_cons_of_neg _ (by simpa using hx)]
        exact ih2
      · simp only [Cache.elapse, List.filterMap_cons, hdx, if_false, Cache.entry] at ih2 ⊢
        exact ih2

theorem getUser_entry_other (cd : Codec) (s : State) (V U : String) (f : Faults)
    (h : U ≠ V) : (getUser cd s V f).state.redisClient.entry U = s.redisClient.entry U := by
  unfold getUser
  split
  · rfl
  · split
    · split <;> rfl
    · simp only [redisSet]
      split
      · rfl
      · exact entry_set_other _ _ _ _ _ h

theorem updateUser_entry_other (s : State) (V U : String) (body : Except String User)
    (f : Faults) (h : U ≠ V) :
    (updateUser s V body f).state.redisClient.entry U = s.redisClient.entry U := by
  unfold updateUser
  split
  · rfl
  · split
    · rfl
    · exact entry_redisDel_other _ _ _ _ h

theorem deleteUser_entry_other (s : State) (V U : String) (f : Faults) (h : U ≠ V) :
    (deleteUser s V f).state.redisClient.entry U = s.redisClient.entry U := by
  unfold deleteUser
  split
  · rfl
  · split
    · rfl
    · exact entry_redisDel_other _ _ _ _ h

theorem step_keeps_value (cd : Codec) (U : String) (s : State) (op : Op) (e : CacheEntry)
    (hent : s.redisClient.entry U = some e) (hq : op.quietFor U s = true) :
    ∃ e1, (step cd s op).redisClient.entry U = some e1 ∧ e1.value = e.value := by
  cases op with
  | getUsers f =>
    simp only [step, getUsers_state]
    exact ⟨e, hent, rfl⟩
  | getUser V f =>
    by_cases hV : V = U
    · subst hV
      have hg : f.redisGet = false := by simpa [Op.quietFor] using hq
      have hget : redisGet s.redisClient V f = some e.value := by
        simp [redisGet, hg, hent]
      simp only [step]
      rw [getUser_hit cd s V e.value f hget]
      exact ⟨e, hent, rfl⟩
    · simp only [step]
      rw [getUser_entry_other cd s V U f (fun h => hV h.symm)]
      exact ⟨e, hent, rfl⟩
  | createUser body f =>
    simp only [step, createUser_redisClient]
    exact ⟨e, hent, rfl⟩
  | updateUser V body f =>
    have hV : V ≠ U := by simpa [Op.quietFor] using hq
    simp only [step]
    rw [updateUser_entry_other s V U body f (fun h => hV h.symm)]
    exact ⟨e, hent, rfl⟩
  | deleteUser V f =>
    have hV : V ≠ U := by simpa [Op.quietFor] using hq
    simp only [step]
    rw [deleteUser_entry_other s V U f (fun h => hV h.symm)]
    exact ⟨e, hent, rfl⟩
  | elapse d =>
    have hd : d < e.ttl := by simpa [Op.quietFor, hent] using hq
    exact ⟨⟨e.value, e.ttl - d⟩, entry_elapse _ U e d hent hd, rfl⟩

theorem run_keeps_value (cd : Codec) (U : String) (ops : List Op) :
    ∀ (s : State) (e : CacheEntry), s.redisClient.entry U = some e →
      quietRun cd U s ops = true →
      ∃ e1, (run cd s ops).redisClient.entry U = some e1 ∧ e1.value = e.value := by
  induction ops with
  | nil => intro s e hent _; exact ⟨e, hent, rfl⟩
  | cons op ops ih =>
    intro s e hent hq
    simp only [quietRun, Bool.and_eq_true] at hq
    obtain ⟨e1, h1, hv1⟩ := step_keeps_value cd U s op e hent hq.1
    obtain ⟨e2, h2, hv2⟩ := ih (step cd s op) e1 h1 hq.2
    exact ⟨e2, h2, by rw [hv2, hv1]⟩

/-- C3: let the codec read back what it writes.  If a `getUser` for `U`
answers `200 OK` and its `Set`, when it issues one, goes through, then after
any run of further steps that holds no `updateUser` or `deleteUser` for `U`
and no expiry of the entry of `U` (requests for other usernames, `createUser`,
`getUsers`, time passing short of the expiry, and `getUser` for `U` whose `Get`
goes through), a `getUser` for `U` whose `Get` goes through gives the response
of the first request, issues no database call (its only call is the `Get`),
and leaves table and key space as they were before it; the entry of `U` still
holds the value it held after the first request. -/
theorem getUser_repeated_from_cache (cd : Codec) (s : State) (U : String) (f g : Faults)
    (ops : List Op)
    (hrt : ∀ u, cd.unmarshal (cd.marshal u) = u)
    (hok : (getUser cd s U f).resp.status = StatusOK) (hset : f.redisSet = false)
    (hops : quietRun cd U (getUser cd s U f).state ops = true)
    (hg : g.redisGet = false) :
    (getUser cd (run cd (getUser cd s U f).state ops) U g).resp = (getUser cd s U f).resp ∧
    dbCallCount (getUser cd (run cd (getUser cd s U f).state ops) U g).calls = 0 ∧
    (getUser cd (run cd (getUser cd s U f).state ops) U g).calls = [Call.redisGet U] ∧
    (getUser cd (run cd (getUser cd s U f).state ops) U g).state
      = run cd (getUser cd s U f).state ops ∧
    ((run cd (getUser cd s U f).state ops).redisClient.entry U).map (fun e => e.value)
      = ((getUser cd s U f).state.redisClient.entry U).map (fun e => e.value) := by
  obtain ⟨e, hent, hresp⟩ := getUser_ok_entry cd s U f hrt hok hset
  obtain ⟨e1, hent1, hv⟩ := run_keeps_value cd U ops _ e hent hops
  have hget : redisGet (run cd (getUser cd s U f).state ops).redisClient U g
      = some e.value := by
    simp [redisGet, hg, hent1, hv]
  rw [getUser_hit cd _ U e.value g hget, hresp, hent, hent1]
  exact ⟨rfl, rfl, rfl, rfl, by simp [hv]⟩

theorem getUser_repeated_from_cache_witness :
    (getUser jsonCodec
        (run jsonCodec
          (getUser jsonCodec ⟨⟨[⟨1, "alice", "a@x.com"⟩], 2⟩, []⟩ "alice" Faults.none).state
          [Op.getUser "alice" Faults.none,
            Op.createUser (Except.ok ⟨0, "bob", "b@x.com"⟩) Faults.none,
            Op.getUser "bob" Faults.none,
            Op.getUsers Faults.none,
            Op.updateUser "bob" (Except.ok ⟨0, "", "b2@x.com"⟩) Faults.none,
            Op.elapse Minute,
            Op.deleteUser "bob" Faults.none,
            Op.getUser "alice" Faults.none])
        "alice" Faults.none).resp
      = (getUser jsonCodec ⟨⟨[⟨1, "alice", "a@x.com"⟩], 2⟩, []⟩ "alice" Faults.none).resp ∧
    dbCallCount (getUser jsonCodec
        (run jsonCodec
          (getUser jsonCodec ⟨⟨[⟨1, "alice", "a@x.com"⟩], 2⟩, []⟩ "alice" Faults.none).state
          [Op.getUser "alice" Faults.none,
            Op.createUser (Except.ok ⟨0, "bob", "b@x.com"⟩) Faults.none,
            Op.getUser "bob" Faults.none,
            Op.getUsers Faults.none,
            Op.updateUser "bob" (Except.ok ⟨0, "", "b2@x.com"⟩) Faults.none,
            Op.elapse Minute,
            Op.deleteUser "bob" Faults.none,
            Op.getUser "alice" Faults.none])
        "alice" Faults.none).calls = 0 :=
  ⟨(getUser_repeated_from_cache jsonCodec ⟨⟨[⟨1, "alice", "a@x.com"⟩], 2⟩, []⟩ "alice"
      Faults.none Faults.none
      [Op.getUser "alice" Faults.none,
        Op.createUser (Except.ok ⟨0, "bob", "b@x.com"⟩) Faults.none,
        Op.getUser "bob" Faults.none,
        Op.getUsers Faults.none,
        Op.updateUser "bob" (Except.ok ⟨0, "", "b2@x.com"⟩) Faults.none,
        Op.elapse Minute,
        Op.deleteUser "bob" Faults.none,
        Op.getUser "alice" Faults.none]
      jsonCodec_roundtrip (by decide) (by decide) (by decide) (by decide)).1,
   (getUser_repeated_from_cache jsonCodec ⟨⟨[⟨1, "alice", "a@x.com"⟩], 2⟩, []⟩ "alice"
      Faults.none Faults.none
      [Op.getUser "alice" Faults.none,
        Op.createUser (Except.ok ⟨0, "bob", "b@x.com"⟩) Faults.none,
        Op.getUser "bob" Faults.none,
        Op.getUsers Faults.none,
        Op.updateUser "bob" (Except.ok ⟨0, "", "b2@x.com"⟩) Faults.none,
        Op.elapse Minute,
        Op.deleteUser "bob" Faults.none,
        Op.getUser "alice" Faults.none]
      jsonCodec_roundtrip (by decide) (by decide) (by decide) (by decide)).2.1⟩

/-! ## Create, read, update, read (C2) -/

/-- C2: start from a table without a row for `U`, let the database calls of
the three requests go through and the `Del` of `updateUser` succeed.  Then
`createUser` for `(U, E)` answers `201 Created` with the id the table assigns,
and after any number of `getUser` requests for `U` (with any outcome of their
calls, so the key space may hold an entry for `U`) and an `updateUser` for `U`
with email `E2`, `getUser` for `U` answers `200 OK` with the record of that
id, username `U` and email `E2`. -/
theorem getUser_after_update (cd : Codec) (s : State) (U E E2 B : String) (i j : Int)
    (fs : List Faults) (f1 f2 f3 : Faults)
    (hrow : ∀ r ∈ s.db.rows, r.Username ≠ U)
    (hdb1 : f1.db = Option.none) (hdb2 : f2.db = Option.none) (hdel : f2.redisDel = false)
    (hdb3 : f3.db = Option.none) :
    (createUser s (Except.ok ⟨i, U, E⟩) f1).resp
      = ⟨StatusCreated, Body.user ⟨Int.ofNat s.db.autoInc, U, E⟩⟩ ∧
    (getUser cd
        (updateUser (reads cd (createUser s (Except.ok ⟨i, U, E⟩) f1).state U fs) U
          (Except.ok ⟨j, B, E2⟩) f2).state
        U f3).resp
      = ⟨StatusOK, Body.user ⟨Int.ofNat s.db.autoInc, U, E2⟩⟩ := by
  have hsel := selectByUsername_eq_none hrow
  have hcreate : createUser s (Except.ok ⟨i, U, E⟩) f1
      = ⟨⟨⟨s.db.rows ++ [⟨Int.ofNat s.db.autoInc, U, E⟩], s.db.autoInc + 1⟩, s.redisClient⟩,
          ⟨StatusCreated, Body.user ⟨Int.ofNat s.db.autoInc, U, E⟩⟩,
          [Call.dbExec sqlInsert [U, E]]⟩ := by
    simp [createUser, dbExecInsert, hdb1, hsel]
  rw [hcreate]
  refine ⟨rfl, ?_⟩
  generalize hs2 : reads cd _ U fs = s2
  have hdb : s2.db = ⟨s.db.rows ++ [⟨Int.ofNat s.db.autoInc, U, E⟩], s.db.autoInc + 1⟩ := by
    rw [← hs2, reads_db]
  have hupd : (updateUser s2 U (Except.ok ⟨j, B, E2⟩) f2).state
      = ⟨⟨s.db.rows ++ [⟨Int.ofNat s.db.autoInc, U, E2⟩], s.db.autoInc + 1⟩,
          s2.redisClient.del U⟩ := by
    have hmap : s.db.rows.map
        (fun r => if r.Username = U then { r with Email := E2 } else r) = s.db.rows := by
      conv_rhs => rw [← List.map_id s.db.rows]
      apply List.map_congr_left
      intro r hr
      simp [hrow r hr]
    simp [updateUser, dbExecUpdate, hdb2, hdel, redisDel, hdb, hmap]
  rw [hupd]
  have hget : redisGet (s2.redisClient.del U) U f3 = Option.none := by
    unfold redisGet; split <;> simp [entry_del_self]
  have hsel2 : DB.selectByUsername
      ⟨s.db.rows ++ [⟨Int.ofNat s.db.autoInc, U, E2⟩], s.db.autoInc + 1⟩ U
      = some ⟨Int.ofNat s.db.autoInc, U, E2⟩ := by
    unfold DB.selectByUsername at hsel ⊢
    simp [List.find?_append, hsel]
  rw [getUser_miss_row cd _ U _ f3 hget hdb3 hsel2]

theorem getUser_after_update_witness :
    (createUser ⟨DB.init, []⟩ (Except.ok ⟨0, "alice", "a@x.com"⟩) Faults.none).resp
      = ⟨StatusCreated, Body.user ⟨Int.ofNat DB.init.autoInc, "alice", "a@x.com"⟩⟩ ∧
    (getUser jsonCodec
        (updateUser
          (reads jsonCodec
            (createUser ⟨DB.init, []⟩ (Except.ok ⟨0, "alice", "a@x.com"⟩) Faults.none).state
            "alice" [Faults.none, Faults.none])
          "alice" (Except.ok ⟨0, "", "a2@x.com"⟩) Faults.none).state
        "alice" Faults.none).resp
      = ⟨StatusOK, Body.user ⟨Int.ofNat DB.init.autoInc, "alice", "a2@x.com"⟩⟩ :=
  getUser_after_update jsonCodec ⟨DB.init, []⟩ "alice" "a@x.com" "a2@x.com" "" 0 0
    [Faults.none, Faults.none] Faults.none Faults.none Faults.none
    (by decide) (by decide) (by decide) (by decide) (by decide)

/-! ## Where cache entries come from (C10) -/

end GoRedisMySQL
